import Mathlib

/-
Verification of the PyChEmiss / AAS4WRF emission preprocessor
(`src/pychemiss.py`, `aas4wrf.py`, `wrfchemi_zeros.py`).

The development shallowly embeds the data-wrangling core of the two
scripts: numeric arrays become `List ℚ`, NetCDF attribute dictionaries
become association lists, the external regridding library (xESMF) is a
function parameter, and the on-disk behaviour is a trace of file
operations.  Each definition mirrors one Python function and is named
after it.
-/

namespace PyChEmiss

/-! ## Cell-boundary calculator (`cell_bound`, aas4wrf.py lines 103-125)

`dx = coord[1:] - coord[0:len(coord)-1]` is the list of consecutive
differences, `coord_b = coord[0:len(coord)-1] + dx/2` the interior
boundaries, and the two end boundaries extrapolate half a step beyond
the first and last centers.  numpy scalar indexing `coord[0]`,
`coord[-1]`, `dx[0]`, `dx[-1]` is rendered with `List.getD` (the claims
only concern arrays of length at least 2, where the default is never
used). -/

/-- The consecutive differences `coord[1:] - coord[0:len(coord)-1]`. -/
def dxOf (coord : List ℚ) : List ℚ :=
  List.zipWith (fun a b => a - b) coord.tail coord.dropLast

/-- Embedding of `cell_bound` from `aas4wrf.py`: interior midpoints with a
half-step linear extrapolation prepended and appended
(`np.insert(coord_b, 0, coord_0)` then `np.append(..., coord_f)`). -/
def cell_bound (coord : List ℚ) : List ℚ :=
  let dx := dxOf coord
  let coord_b := List.zipWith (fun c d => c + d / 2) coord.dropLast dx
  let coord_0 := coord.getD 0 0 - dx.getD 0 0 / 2
  let coord_f := coord.getD (coord.length - 1) 0 + dx.getD (dx.length - 1) 0 / 2
  (coord_0 :: coord_b) ++ [coord_f]

theorem length_dxOf (c : List ℚ) : (dxOf c).length = c.length - 1 := by
  simp [dxOf]

theorem getD_dxOf (c : List ℚ) (i : ℕ) (h : i + 1 < c.length) :
    (dxOf c).getD i 0 = c.getD (i + 1) 0 - c.getD i 0 := by
  have hlen : i < (dxOf c).length := by
    rw [length_dxOf]; omega
  rw [List.getD_eq_getElem _ _ hlen,
      List.getD_eq_getElem _ _ h, List.getD_eq_getElem _ _ (by omega)]
  simp only [dxOf, List.getElem_zipWith, List.getElem_tail, List.getElem_dropLast]

theorem cell_bound_length (c : List ℚ) (h : 1 ≤ c.length) :
    (cell_bound c).length = c.length + 1 := by
  simp [cell_bound, dxOf]
  omega

theorem cell_bound_getD_zero (c : List ℚ) (h2 : 2 ≤ c.length) :
    (cell_bound c).getD 0 0 = c.getD 0 0 - (c.getD 1 0 - c.getD 0 0) / 2 := by
  have h0 : (dxOf c).getD 0 0 = c.getD 1 0 - c.getD 0 0 := getD_dxOf c 0 (by omega)
  simp only [cell_bound, List.cons_append, List.getD_cons_zero]
  rw [h0]

theorem cell_bound_getD_succ (c : List ℚ) (i : ℕ) (h : i + 1 < c.length) :
    (cell_bound c).getD (i + 1) 0
      = c.getD i 0 + (c.getD (i + 1) 0 - c.getD i 0) / 2 := by
  have hb : i < (List.zipWith (fun a d => a + d / 2) c.dropLast (dxOf c)).length := by
    simp [dxOf]; omega
  have hmain : (cell_bound c).getD (i + 1) 0
      = (List.zipWith (fun a d => a + d / 2) c.dropLast (dxOf c)).getD i 0 := by
    have hlt : i + 1 < (cell_bound c).length := by
      rw [cell_bound_length c (by omega)]; omega
    rw [List.getD_eq_getElem _ _ hlt, List.getD_eq_getElem _ _ hb]
    simp only [cell_bound]
    rw [List.getElem_append]
    simp only [List.length_cons, hb]
    rw [dif_pos (by simpa using Nat.succ_lt_succ hb)]
    simp
  rw [hmain, List.getD_eq_getElem _ _ hb]
  simp only [List.getElem_zipWith, List.getElem_dropLast]
  rw [← List.getD_eq_getElem c 0 (show i < c.length by omega),
      ← List.getD_eq_getElem (dxOf c) 0 (show i < (dxOf c).length by rw [length_dxOf]; omega)]
  rw [getD_dxOf c i h]

theorem cell_bound_getD_last (c : List ℚ) (h2 : 2 ≤ c.length) :
    (cell_bound c).getD c.length 0
      = c.getD (c.length - 1) 0
        + (c.getD (c.length - 1) 0 - c.getD (c.length - 2) 0) / 2 := by
  have hcb : (List.zipWith (fun a d => a + d / 2) c.dropLast (dxOf c)).length
      = c.length - 1 := by
    simp [dxOf]
  have hlast : (cell_bound c).getD c.length 0
      = c.getD (c.length - 1) 0 + (dxOf c).getD ((dxOf c).length - 1) 0 / 2 := by
    have hlt : c.length < (cell_bound c).length := by
      rw [cell_bound_length c (by omega)]; omega
    rw [List.getD_eq_getElem _ _ hlt]
    simp only [cell_bound]
    rw [List.getElem_append]
    rw [dif_neg (by simp [hcb]; omega)]
    simp [hcb]
  rw [hlast, length_dxOf]
  have hn : c.length - 1 - 1 = c.length - 2 := by omega
  rw [hn, getD_dxOf c (c.length - 2) (by omega)]
  have : c.length - 2 + 1 = c.length - 1 := by omega
  rw [this]

/-- C5: for a 1-D cell-center array of length `n ≥ 2`, `cell_bound` returns
an array of length `n + 1` whose interior boundary `i` (for `1 ≤ i ≤ n-1`)
is the midpoint `(coord[i-1] + coord[i]) / 2`, whose first boundary is
`coord[0] - (coord[1] - coord[0]) / 2`, and whose last boundary is
`coord[n-1] + (coord[n-1] - coord[n-2]) / 2`. -/
theorem cell_bound_spec (c : List ℚ) (n : ℕ) (hn : c.length = n) (h2 : 2 ≤ n) :
    (cell_bound c).length = n + 1 ∧
    (∀ i, 1 ≤ i → i ≤ n - 1 →
      (cell_bound c).getD i 0 = (c.getD (i - 1) 0 + c.getD i 0) / 2) ∧
    (cell_bound c).getD 0 0 = c.getD 0 0 - (c.getD 1 0 - c.getD 0 0) / 2 ∧
    (cell_bound c).getD n 0
      = c.getD (n - 1) 0 + (c.getD (n - 1) 0 - c.getD (n - 2) 0) / 2 := by
  subst hn
  refine ⟨cell_bound_length c (by omega), ?_, cell_bound_getD_zero c h2,
    cell_bound_getD_last c h2⟩
  intro i h1 hle
  obtain ⟨j, rfl⟩ : ∃ j, i = j + 1 := ⟨i - 1, by omega⟩
  rw [cell_bound_getD_succ c j (by omega)]
  simp only [Nat.add_sub_cancel]
  ring

/-- Witness for C5 at the concrete centers `[0, 1, 3]`. -/
theorem cell_bound_spec_witness :
    ([(0 : ℚ), 1, 3].length = 3) ∧
    (cell_bound [(0 : ℚ), 1, 3]).getD 1 0
      = ([(0 : ℚ), 1, 3].getD 0 0 + [(0 : ℚ), 1, 3].getD 1 0) / 2 :=
  ⟨rfl, (cell_bound_spec [(0 : ℚ), 1, 3] 3 rfl (by norm_num)).2.1 1
    (by norm_num) (by norm_num)⟩

theorem pairwise_getD_lt (c : List ℚ) (h : List.Pairwise (· < ·) c)
    (i j : ℕ) (hj : j < c.length) (hij : i < j) :
    c.getD i 0 < c.getD j 0 := by
  rw [List.getD_eq_getElem _ _ (by omega), List.getD_eq_getElem _ _ hj]
  exact List.pairwise_iff_getElem.mp h i j (by omega) hj hij

/-- C10: for a strictly increasing center array of length `n ≥ 2`, the
boundary array returned by `cell_bound` is strictly increasing, and each
center lies strictly between its two enclosing boundaries. -/
theorem cell_bound_strict_mono (c : List ℚ) (h2 : 2 ≤ c.length)
    (hmono : List.Pairwise (· < ·) c) :
    List.Pairwise (· < ·) (cell_bound c) ∧
    ∀ i, i < c.length →
      (cell_bound c).getD i 0 < c.getD i 0 ∧
      c.getD i 0 < (cell_bound c).getD (i + 1) 0 := by
  have hadj : ∀ i, i + 1 < c.length → c.getD i 0 < c.getD (i + 1) 0 := by
    intro i h
    exact pairwise_getD_lt c hmono i (i + 1) h (by omega)
  have getBound : ∀ i, i < c.length →
      (cell_bound c).getD i 0 < c.getD i 0 ∧
      c.getD i 0 < (cell_bound c).getD (i + 1) 0 := by
    intro i hi
    constructor
    · rcases Nat.eq_zero_or_pos i with h0 | hpos
      · subst h0
        rw [cell_bound_getD_zero c h2]
        have := hadj 0 (by omega)
        linarith
      · obtain ⟨j, rfl⟩ : ∃ j, i = j + 1 := ⟨i - 1, by omega⟩
        rw [cell_bound_getD_succ c j (by omega)]
        have := hadj j (by omega)
        linarith
    · rcases Nat.lt_or_ge (i + 1) c.length with hlt | hge
      · rw [cell_bound_getD_succ c i hlt]
        have := hadj i hlt
        linarith
      · have hieq : i = c.length - 1 := by omega
        subst hieq
        have hone : c.length - 1 + 1 = c.length := by omega
        rw [hone, cell_bound_getD_last c h2]
        have := hadj (c.length - 2) (by omega)
        have heq : c.length - 2 + 1 = c.length - 1 := by omega
        rw [heq] at this
        linarith
  refine ⟨?_, getBound⟩
  rw [← List.chain'_iff_pairwise]
  rw [List.chain'_iff_get]
  intro i hilt
  have hlen : (cell_bound c).length = c.length + 1 := cell_bound_length c (by omega)
  have hi : i < c.length := by omega
  have h1 : (cell_bound c).get ⟨i, by omega⟩ = (cell_bound c).getD i 0 := by
    rw [List.getD_eq_getElem _ _ (by omega)]
    rfl
  have h2' : (cell_bound c).get ⟨i + 1, by omega⟩ = (cell_bound c).getD (i + 1) 0 := by
    rw [List.getD_eq_getElem _ _ (by omega)]
    rfl
  rw [h1, h2']
  have := getBound i hi
  linarith [this.1, this.2]

/-- Witness for C10 at the concrete strictly increasing centers `[0, 1, 3]`. -/
theorem cell_bound_strict_mono_witness :
    List.Pairwise (· < ·) (cell_bound [(0 : ℚ), 1, 3]) ∧
    (cell_bound [(0 : ℚ), 1, 3]).getD 1 0 < [(0 : ℚ), 1, 3].getD 1 0 :=
  ⟨(cell_bound_strict_mono [(0 : ℚ), 1, 3] (by norm_num) (by norm_num)).1,
   ((cell_bound_strict_mono [(0 : ℚ), 1, 3] (by norm_num) (by norm_num)).2 1
     (by norm_num)).1⟩

/-! ## Grid reshaper (`create_dataset_per_emiss`, pychemiss.py lines 47-80;
`create_dataaaray_per_emi`, aas4wrf.py lines 51-100)

Both functions call `emiss_df[emi].values.reshape(T, nlat, nlon)` on the
flat species column.  numpy's row-major (C-order) `reshape` splits the
flat array into `T` consecutive blocks of `nlat * nlon` values, each of
which splits into `nlat` consecutive rows of `nlon` values; `reshape`
raises when the flat length differs from `T * nlat * nlon`, which the
`Option` models. -/

/-- Splitting a list into consecutive blocks of `k` elements (the
row-major reading numpy `reshape` performs along one axis). -/
def chunk (k : ℕ) (l : List α) : List (List α) :=
  if h : k = 0 ∨ l.length = 0 then []
  else l.take k :: chunk k (l.drop k)
termination_by l.length
decreasing_by
  push_neg at h
  simp only [List.length_drop]
  omega

/-- Embedding of the numpy C-order `reshape(T, nlat, nlon)` applied to the
flat species column in `create_dataset_per_emiss` /
`create_dataaaray_per_emi`. -/
def reshape3 (col : List ℚ) (T nlat nlon : ℕ) : Option (List (List (List ℚ))) :=
  if col.length = T * nlat * nlon then
    some ((chunk (nlat * nlon) col).map (chunk nlon))
  else none

theorem chunk_getElem? (k : ℕ) (hk : 0 < k) :
    ∀ (i : ℕ) (l : List α), i * k < l.length →
      (chunk k l)[i]? = some ((l.drop (i * k)).take k) := by
  intro i
  induction i with
  | zero =>
    intro l hi
    rw [chunk]
    rw [dif_neg (by
      push_neg
      simp only [Nat.zero_mul] at hi
      exact ⟨by omega, by omega⟩)]
    simp
  | succ n ih =>
    intro l hi
    have hlpos : 0 < l.length := by
      have : 0 < (n + 1) * k := by positivity
      omega
    rw [chunk]
    rw [dif_neg (by push_neg; exact ⟨by omega, by omega⟩)]
    rw [List.getElem?_cons_succ]
    have hdrop : n * k < (l.drop k).length := by
      simp only [List.length_drop]
      have : (n + 1) * k = n * k + k := by ring
      omega
    rw [ih (l.drop k) hdrop, List.drop_drop]
    have : k + n * k = (n + 1) * k := by ring
    rw [this]

theorem getD_drop_take (l : List ℚ) (m k j : ℕ) (hj : j < k)
    (hm : m + j < l.length) :
    ((l.drop m).take k).getD j 0 = l.getD (m + j) 0 := by
  have hb : j < ((l.drop m).take k).length := by
    simp only [List.length_take, List.length_drop]
    omega
  rw [List.getD_eq_getElem _ _ hb, List.getD_eq_getElem _ _ hm]
  rw [List.getElem_take, List.getElem_drop]

/-- C6: a flat species column of length `T * nlat * nlon` reshapes to a
`(T, nlat, nlon)` cube whose element at time `t`, latitude row `i` and
longitude column `j` is the flat entry at row `t * nlat * nlon + i * nlon + j`. -/
theorem reshape3_spec (col : List ℚ) (T nlat nlon t i j : ℕ)
    (hlen : col.length = T * nlat * nlon)
    (ht : t < T) (hi : i < nlat) (hj : j < nlon) :
    ∃ cube, reshape3 col T nlat nlon = some cube ∧
      ((cube.getD t []).getD i []).getD j 0
        = col.getD (t * nlat * nlon + i * nlon + j) 0 := by
  have hnlon : 0 < nlon := by omega
  have hK : 0 < nlat * nlon := Nat.mul_pos (by omega) hnlon
  refine ⟨(chunk (nlat * nlon) col).map (chunk nlon), by rw [reshape3, if_pos hlen], ?_⟩
  have htK : t * (nlat * nlon) < col.length := by
    rw [hlen, mul_assoc]
    exact (Nat.mul_lt_mul_right hK).mpr ht
  have houter : (chunk (nlat * nlon) col)[t]?
      = some ((col.drop (t * (nlat * nlon))).take (nlat * nlon)) :=
    chunk_getElem? (nlat * nlon) hK t col htK
  have hmap : ((chunk (nlat * nlon) col).map (chunk nlon)).getD t []
      = chunk nlon ((col.drop (t * (nlat * nlon))).take (nlat * nlon)) := by
    rw [List.getD_eq_getElem?_getD, List.getElem?_map, houter]
    rfl
  rw [hmap]
  set block := (col.drop (t * (nlat * nlon))).take (nlat * nlon) with hblock
  have hblock_len : block.length = nlat * nlon := by
    rw [hblock]
    simp only [List.length_take, List.length_drop]
    have h1 : (t + 1) * (nlat * nlon) ≤ col.length := by
      rw [hlen, mul_assoc]
      exact Nat.mul_le_mul_right (nlat * nlon) ht
    have h2 : (t + 1) * (nlat * nlon) = t * (nlat * nlon) + nlat * nlon := by ring
    omega
  have hiK : i * nlon < block.length := by
    rw [hblock_len]
    exact (Nat.mul_lt_mul_right hnlon).mpr hi
  have hinner : (chunk nlon block)[i]? = some ((block.drop (i * nlon)).take nlon) :=
    chunk_getElem? nlon hnlon i block hiK
  have hrow : (chunk nlon block).getD i [] = (block.drop (i * nlon)).take nlon := by
    rw [List.getD_eq_getElem?_getD, hinner]
    rfl
  rw [hrow]
  have hij : i * nlon + j < nlat * nlon := by
    have h1 : i * nlon + j < (i + 1) * nlon := by
      have : (i + 1) * nlon = i * nlon + nlon := by ring
      omega
    have h2 : (i + 1) * nlon ≤ nlat * nlon :=
      Nat.mul_le_mul_right nlon hi
    omega
  have hstep1 : ((block.drop (i * nlon)).take nlon).getD j 0
      = block.getD (i * nlon + j) 0 :=
    getD_drop_take block (i * nlon) nlon j hj (by omega)
  rw [hstep1, hblock]
  have hstep2 : ((col.drop (t * (nlat * nlon))).take (nlat * nlon)).getD (i * nlon + j) 0
      = col.getD (t * (nlat * nlon) + (i * nlon + j)) 0 := by
    refine getD_drop_take col (t * (nlat * nlon)) (nlat * nlon) (i * nlon + j) hij ?_
    have h1 : (t + 1) * (nlat * nlon) ≤ col.length := by
      rw [hlen, mul_assoc]
      exact Nat.mul_le_mul_right (nlat * nlon) ht
    have h2 : (t + 1) * (nlat * nlon) = t * (nlat * nlon) + nlat * nlon := by ring
    omega
  rw [hstep2]
  have : t * (nlat * nlon) + (i * nlon + j) = t * nlat * nlon + i * nlon + j := by ring
  rw [this]

/-- Witness for C6 at a concrete `2 x 2 x 2` column. -/
theorem reshape3_spec_witness :
    ([(0 : ℚ), 1, 2, 3, 4, 5, 6, 7].length = 2 * 2 * 2) ∧
    ∃ cube, reshape3 [(0 : ℚ), 1, 2, 3, 4, 5, 6, 7] 2 2 2 = some cube ∧
      ((cube.getD 1 []).getD 0 []).getD 1 0
        = [(0 : ℚ), 1, 2, 3, 4, 5, 6, 7].getD (1 * 2 * 2 + 0 * 2 + 1) 0 :=
  ⟨rfl, reshape3_spec [(0 : ℚ), 1, 2, 3, 4, 5, 6, 7] 2 2 2 1 0 1 rfl
    (by norm_num) (by norm_num) (by norm_num)⟩

/-! ## Conservation totals (`total_emiss_emiss_input`, pychemiss.py lines
111-134; `total_emiss_wrfchemi`, pychemiss.py lines 84-108)

An xarray `DataArray` is flattened to the list of its values over all
grid cells and time steps; `(arr * scalar).sum()` becomes an element-wise
scaling followed by `List.sum`.  The groupings `* (molecular_mass / 10**9)`
and `* molecular_mass / 10**9` are kept exactly as in the source. -/

/-- Embedding of `total_emiss_emiss_input` (pychemiss.py):
`(emiss_input[pol] * cell_area).sum() * (molecular_mass / 10**9)`. -/
def total_emiss_emiss_input (emiss_pol : List ℚ) (molecular_mass cell_area : ℚ) : ℚ :=
  (emiss_pol.map (fun e => e * cell_area)).sum * (molecular_mass / 10 ^ 9)

/-- Embedding of `total_emiss_wrfchemi` (pychemiss.py):
`wrf_cell_area_km = DX * DY / 10**6` and
`(wrf_pol * wrf_cell_area_km).sum() * molecular_mass / 10**9`. -/
def total_emiss_wrfchemi (wrf_pol : List ℚ) (molecular_mass DX DY : ℚ) : ℚ :=
  let wrf_cell_area_km := DX * DY / 10 ^ 6
  (wrf_pol.map (fun e => e * wrf_cell_area_km)).sum * molecular_mass / 10 ^ 9

/-- C7: the before-regridding total is the sum over all cells and time
steps of the emission value times the cell area, multiplied by the
molecular mass and divided by `10^9`; the after-regridding total is the
sum over the WRF grid of the emission value times `DX * DY / 10^6`,
multiplied by the molecular mass and divided by `10^9`. -/
theorem totals_formula (emiss wrf : List ℚ) (m cell_area DX DY : ℚ) :
    total_emiss_emiss_input emiss m cell_area
      = (emiss.map (fun e => e * cell_area)).sum * m / 10 ^ 9 ∧
    total_emiss_wrfchemi wrf m DX DY
      = (wrf.map (fun e => e * (DX * DY / 10 ^ 6))).sum * m / 10 ^ 9 := by
  constructor
  · rw [total_emiss_emiss_input, mul_div_assoc]
  · rfl

/-! ## Conservation diagnostic report (`nearest_method`, pychemiss.py lines
137-206)

After the regridding call, `nearest_method` computes the input totals of
`E_CO`, `E_NO` and `E_NO2` (molecular masses 28, 30 and 46) with
`total_emiss_emiss_input`, the regridded totals with
`total_emiss_wrfchemi`, and prints six labelled absolute totals in kTn
(the label of the last line reads `NO3` in the source although the value
printed is the `E_NO2` total).  The regridded fields are produced by the
external xESMF library, so they enter the model as unconstrained data. -/

/-- The data feeding the conservation diagnostic of `nearest_method`:
the three checked input species columns, the three regridded fields
(as returned by the external regridder), the emission cell area and the
wrfinput `DX`/`DY` attributes. -/
structure DiagnosticInput where
  e_co : List ℚ
  e_no : List ℚ
  e_no2 : List ℚ
  wrf_co : List ℚ
  wrf_no : List ℚ
  wrf_no2 : List ℚ
  cell_area : ℚ
  DX : ℚ
  DY : ℚ

/-- The labelled numeric values printed by the diagnostic section of
`nearest_method` (pychemiss.py lines 166-204), in print order. -/
def nearest_method_report (d : DiagnosticInput) : List (String × ℚ) :=
  [("Total CO emission", total_emiss_emiss_input d.e_co 28 d.cell_area),
   ("Total NO emission", total_emiss_emiss_input d.e_no 30 d.cell_area),
   ("Total NO2 emission", total_emiss_emiss_input d.e_no2 46 d.cell_area),
   ("Total CO emission after regridding", total_emiss_wrfchemi d.wrf_co 28 d.DX d.DY),
   ("Total NO emission after regridding", total_emiss_wrfchemi d.wrf_no 30 d.DX d.DY),
   ("Total NO3 emission after regridding", total_emiss_wrfchemi d.wrf_no2 46 d.DX d.DY)]

/-- A concrete diagnostic input: one emission cell of value 1, cell area 1,
regridded to a single WRF cell of value 1 with `DX = DY = 1000` m.  Every
before/after pair of totals then agrees, so the conserved percentage of
each species is 100. -/
def diagInput0 : DiagnosticInput :=
  ⟨[1], [1], [1], [1], [1], [1], 1, 1000, 1000⟩

/-- C2, counterexample: on `diagInput0` the percentage conserved of each
checked species is 100, yet no value printed by the diagnostic equals it;
the report contains the absolute before/after totals only, never the
ratio of the two expressed as a percentage. -/
theorem nearest_method_report_no_percentage :
    (100 * total_emiss_wrfchemi [1] 28 1000 1000
        / total_emiss_emiss_input [1] 28 1
      ∉ (nearest_method_report diagInput0).map Prod.snd) ∧
    (100 * total_emiss_wrfchemi [1] 30 1000 1000
        / total_emiss_emiss_input [1] 30 1
      ∉ (nearest_method_report diagInput0).map Prod.snd) ∧
    (100 * total_emiss_wrfchemi [1] 46 1000 1000
        / total_emiss_emiss_input [1] 46 1
      ∉ (nearest_method_report diagInput0).map Prod.snd) := by
  refine ⟨?_, ?_, ?_⟩ <;>
    · simp only [nearest_method_report, diagInput0, total_emiss_wrfchemi,
        total_emiss_emiss_input, List.map_cons, List.map_nil, List.mem_cons,
        List.not_mem_nil, List.map_singleton, List.sum_cons, List.sum_nil]
      norm_num

/-- C2, amended: the conservation diagnostic computes, for each checked
species, the total emission before regridding (weighted by the emission
cell area and the species' molecular mass) and after regridding (weighted
by the WRF cell area and the molecular mass), and its report contains both
absolute totals for each species; it does not form their ratio. -/
theorem nearest_method_report_totals (d : DiagnosticInput) :
    ("Total CO emission",
        total_emiss_emiss_input d.e_co 28 d.cell_area) ∈ nearest_method_report d ∧
    ("Total NO emission",
        total_emiss_emiss_input d.e_no 30 d.cell_area) ∈ nearest_method_report d ∧
    ("Total NO2 emission",
        total_emiss_emiss_input d.e_no2 46 d.cell_area) ∈ nearest_method_report d ∧
    ("Total CO emission after regridding",
        total_emiss_wrfchemi d.wrf_co 28 d.DX d.DY) ∈ nearest_method_report d ∧
    ("Total NO emission after regridding",
        total_emiss_wrfchemi d.wrf_no 30 d.DX d.DY) ∈ nearest_method_report d ∧
    ("Total NO3 emission after regridding",
        total_emiss_wrfchemi d.wrf_no2 46 d.DX d.DY) ∈ nearest_method_report d := by
  simp [nearest_method_report]

/-! ## Output file naming and writing (`name_wrfchemi_file`, pychemiss.py
lines 265-291; `write_netcdf`, lines 293-317; `write_wrfchemi`, lines
319-346)

`name_wrfchemi_file` returns either a single dynamically typed string or
a pair of strings, modelled by a sum type.  `write_netcdf` computes
`path + file_name`; handing it the pair raises a `TypeError` in Python,
which the `Except` error models.  Python `str.join` is embedded as
`pyJoin`, and Python subscription `output_name[i]`, which selects a pair
component or a single character of a string, as `subscript0`/`subscript1`.
A wrfchemi dataset enters as the list of its per-time-step slices (one
entry per `Times` value), so `isel(Time=slice(a, b))` is `drop`/`take`. -/

/-- Python `sep.join(parts)`. -/
def pyJoin (sep : String) : List String → String
  | [] => ""
  | [s] => s
  | s :: rest => s ++ sep ++ pyJoin sep rest

/-- Embedding of `name_wrfchemi_file`: a single name
`"_".join(["wrfchemi", dom, date_start])` when more than 24 dates are
given, otherwise the pair of half-day names. -/
def name_wrfchemi_file (grid_id : ℕ) (wrfinput_times0 : String) (nDates : ℕ) :
    String ⊕ String × String :=
  let dom := pyJoin "" ["d0", toString grid_id]
  if 24 < nDates then
    Sum.inl (pyJoin "_" ["wrfchemi", dom, wrfinput_times0])
  else
    Sum.inr (pyJoin "_" ["wrfchemi", dom, "00z"], pyJoin "_" ["wrfchemi", dom, "12z"])

/-- Embedding of `write_netcdf`: `path + file_name` succeeds on a string
and raises `TypeError` on the tuple; on success the file
`"./results/" ++ file_name` receives the dataset. -/
def write_netcdf (wrfchemi : List α) (file_name : String ⊕ String × String) :
    Except String (String × List α) :=
  match file_name with
  | Sum.inl s => Except.ok ("./results/" ++ s, wrfchemi)
  | Sum.inr _ => Except.error "TypeError: can only concatenate str (not tuple) to str"

/-- Python `output_name[0]`: the first component of a tuple, or the first
character of a string. -/
def subscript0 : String ⊕ String × String → String ⊕ String × String
  | Sum.inl s => Sum.inl (s.take 1)
  | Sum.inr p => Sum.inl p.1

/-- Python `output_name[1]`: the second component of a tuple, or the second
character of a string. -/
def subscript1 : String ⊕ String × String → String ⊕ String × String
  | Sum.inl s => Sum.inl ((s.drop 1).take 1)
  | Sum.inr p => Sum.inl p.2

/-- Embedding of `write_wrfchemi`: the splitting branch writes
`isel(Time=slice(0, 12))` under `output_name[0]` and
`isel(Time=slice(12, 24))` under `output_name[1]`; any other time count
hands `output_name` itself to `write_netcdf`.  The returned list records
the files written with their contents; an error writes nothing. -/
def write_wrfchemi (wrfchemi : List α) (grid_id : ℕ) (wrfinput_times0 : String)
    (nDates : ℕ) : Except String (List (String × List α)) :=
  let output_name := name_wrfchemi_file grid_id wrfinput_times0 nDates
  if wrfchemi.length = 24 then do
    let w00 ← write_netcdf (wrfchemi.take 12) (subscript0 output_name)
    let w12 ← write_netcdf ((wrfchemi.drop 12).take 12) (subscript1 output_name)
    Except.ok [w00, w12]
  else do
    let w ← write_netcdf wrfchemi output_name
    Except.ok [w]

theorem pyJoin3 (sep a b c : String) :
    pyJoin sep [a, b, c] = a ++ sep ++ b ++ sep ++ c := by
  simp only [pyJoin, String.append_assoc]

theorem dom_eq (g : ℕ) : pyJoin "" ["d0", toString g] = "d0" ++ toString g := by
  simp only [pyJoin, String.append_empty]

theorem name_wrfchemi_file_le_24 (g : ℕ) (t0 : String) (nDates : ℕ)
    (h : nDates ≤ 24) :
    name_wrfchemi_file g t0 nDates
      = Sum.inr ("wrfchemi_d0" ++ toString g ++ "_00z",
                 "wrfchemi_d0" ++ toString g ++ "_12z") := by
  rw [name_wrfchemi_file]
  rw [if_neg (by omega)]
  rw [dom_eq, pyJoin3, pyJoin3]
  simp only [← String.append_assoc]
  have hp : "wrfchemi" ++ "_" ++ "d0" = "wrfchemi_d0" := rfl
  rw [hp, String.append_assoc ("wrfchemi_d0" ++ toString g) "_" "00z",
      String.append_assoc ("wrfchemi_d0" ++ toString g) "_" "12z"]
  rfl

theorem name_wrfchemi_file_gt_24 (g : ℕ) (t0 : String) (nDates : ℕ)
    (h : 24 < nDates) :
    name_wrfchemi_file g t0 nDates
      = Sum.inl ("wrfchemi_d0" ++ toString g ++ "_" ++ t0) := by
  rw [name_wrfchemi_file]
  rw [if_pos h]
  rw [dom_eq, pyJoin3]
  simp only [← String.append_assoc]
  have hp : "wrfchemi" ++ "_" ++ "d0" = "wrfchemi_d0" := rfl
  rw [hp]

/-- C3: with exactly 24 hourly steps, `write_wrfchemi` writes the two
half-day files `wrfchemi_d0<GRID_ID>_00z` (time steps 0 through 11) and
`wrfchemi_d0<GRID_ID>_12z` (time steps 12 through 23); with more than 24
steps it writes the single file
`wrfchemi_d0<GRID_ID>_<first Times string of wrfinput>` holding all steps.
The hypothesis ties the dataset's time dimension to the date-range length,
as the pipeline construction guarantees. -/
theorem write_wrfchemi_naming (wrfchemi : List ℚ) (g : ℕ) (t0 : String)
    (nDates : ℕ) (hcoh : wrfchemi.length = nDates) :
    (nDates = 24 →
      write_wrfchemi wrfchemi g t0 nDates
        = Except.ok
            [("./results/" ++ ("wrfchemi_d0" ++ toString g ++ "_00z"),
                wrfchemi.take 12),
             ("./results/" ++ ("wrfchemi_d0" ++ toString g ++ "_12z"),
                (wrfchemi.drop 12).take 12)]) ∧
    (24 < nDates →
      write_wrfchemi wrfchemi g t0 nDates
        = Except.ok
            [("./results/" ++ ("wrfchemi_d0" ++ toString g ++ "_" ++ t0),
                wrfchemi)]) ∧
    (nDates = 24 → ∀ s, s < 12 →
      (wrfchemi.take 12).getD s 0 = wrfchemi.getD s 0 ∧
      ((wrfchemi.drop 12).take 12).getD s 0 = wrfchemi.getD (12 + s) 0) := by
  refine ⟨?_, ?_, ?_⟩
  · intro h24
    rw [write_wrfchemi]
    rw [name_wrfchemi_file_le_24 g t0 nDates (by omega)]
    rw [if_pos (by omega)]
    rfl
  · intro hgt
    rw [write_wrfchemi]
    rw [name_wrfchemi_file_gt_24 g t0 nDates hgt]
    rw [if_neg (by omega)]
    rfl
  · intro h24 s hs
    constructor
    · have h1 : ((wrfchemi.drop 0).take 12).getD s 0 = wrfchemi.getD (0 + s) 0 :=
        getD_drop_take wrfchemi 0 12 s hs (by omega)
      simpa using h1
    · exact getD_drop_take wrfchemi 12 12 s hs (by omega)

/-- Witness for C3 with a concrete 24-step dataset. -/
theorem write_wrfchemi_naming_witness :
    write_wrfchemi (List.replicate 24 (0 : ℚ)) 1 "2014-10-06_00:00:00" 24
      = Except.ok
          [("./results/" ++ ("wrfchemi_d0" ++ toString 1 ++ "_00z"),
              (List.replicate 24 (0 : ℚ)).take 12),
           ("./results/" ++ ("wrfchemi_d0" ++ toString 1 ++ "_12z"),
              ((List.replicate 24 (0 : ℚ)).drop 12).take 12)] :=
  (write_wrfchemi_naming (List.replicate 24 (0 : ℚ)) 1 "2014-10-06_00:00:00" 24
    (by simp)).1 rfl

/-- C4: whenever the hourly date range has fewer than 24 steps,
`name_wrfchemi_file` still returns the pair of half-day names (it does so
for any count of at most 24), `write_wrfchemi` takes its non-splitting
branch and hands the pair to `write_netcdf`, whose `path + file_name`
concatenation raises `TypeError` before any file is written; the run
succeeds exactly when the range has at least 24 steps. -/
theorem write_wrfchemi_short_range (wrfchemi : List ℚ) (g : ℕ) (t0 : String)
    (nDates : ℕ) (hcoh : wrfchemi.length = nDates) :
    (nDates ≤ 24 →
      name_wrfchemi_file g t0 nDates
        = Sum.inr ("wrfchemi_d0" ++ toString g ++ "_00z",
                   "wrfchemi_d0" ++ toString g ++ "_12z")) ∧
    (nDates < 24 →
      write_wrfchemi wrfchemi g t0 nDates
        = Except.error "TypeError: can only concatenate str (not tuple) to str") ∧
    ((write_wrfchemi wrfchemi g t0 nDates).isOk = true ↔ 24 ≤ nDates) := by
  have herr : nDates < 24 →
      write_wrfchemi wrfchemi g t0 nDates
        = Except.error "TypeError: can only concatenate str (not tuple) to str" := by
    intro hlt
    rw [write_wrfchemi]
    rw [name_wrfchemi_file_le_24 g t0 nDates (by omega)]
    rw [if_neg (by omega)]
    rfl
  refine ⟨fun h => name_wrfchemi_file_le_24 g t0 nDates h, herr, ?_⟩
  rcases Nat.lt_or_ge nDates 24 with hlt | hge
  · rw [herr hlt]
    constructor
    · intro hfalse
      simp [Except.isOk, Except.toBool] at hfalse
    · intro hge2
      omega
  · have hok : (write_wrfchemi wrfchemi g t0 nDates).isOk = true := by
      rcases Nat.eq_or_lt_of_le hge with heq | hgt
      · rw [write_wrfchemi, name_wrfchemi_file_le_24 g t0 nDates (by omega),
            if_pos (by omega)]
        rfl
      · rw [write_wrfchemi, name_wrfchemi_file_gt_24 g t0 nDates hgt,
            if_neg (by omega)]
        rfl
    rw [hok]
    simp [hge]

/-- Witness for C4 at a concrete 3-step date range. -/
theorem write_wrfchemi_short_range_witness :
    name_wrfchemi_file 1 "2014-10-06_00:00:00" 3
      = Sum.inr ("wrfchemi_d0" ++ toString 1 ++ "_00z",
                 "wrfchemi_d0" ++ toString 1 ++ "_12z") ∧
    write_wrfchemi [(0 : ℚ), 0, 0] 1 "2014-10-06_00:00:00" 3
      = Except.error "TypeError: can only concatenate str (not tuple) to str" :=
  ⟨(write_wrfchemi_short_range [(0 : ℚ), 0, 0] 1 "2014-10-06_00:00:00" 3 rfl).1
      (by norm_num),
   (write_wrfchemi_short_range [(0 : ℚ), 0, 0] 1 "2014-10-06_00:00:00" 3 rfl).2.1
      (by norm_num)⟩

/-! ## Output composer (`wrfchemi_to_netcdf`, pychemiss.py lines 208-263;
`write_var_attributes`, aas4wrf.py lines 302-327)

NetCDF attribute dictionaries become insertion-ordered association
lists; Python dict assignment `attrs[key] = value` is `setAttr`
(overwrite in place if the key exists, append otherwise).  The dataset
model keeps the per-variable attribute dictionaries, the global
attribute dictionary and the `Times` entries; variable payloads,
dimension reordering (`expand_dims`/`transpose`) and the
`lat`/`lon` -> `XLAT`/`XLONG` rename do not affect any attribute
dictionary and stay outside the model.  The regridded dataset handed to
the composer comes from the external regridder, so its pre-existing
attributes are arbitrary.  `strftime("%Y-%m-%d_%H:%M:%S")` renders each
field as a zero-padded fixed-width decimal; the embedding writes those
fixed-width digit strings directly. -/

/-- A NetCDF attribute value (integer or string). -/
inductive AttrVal where
  | i : Int → AttrVal
  | s : String → AttrVal
deriving DecidableEq

/-- Key-membership test of an attribute dictionary. -/
def hasKey (attrs : List (String × AttrVal)) (k : String) : Bool :=
  match attrs with
  | [] => false
  | p :: rest => p.1 = k || hasKey rest k

/-- Python dict assignment `attrs[k] = v` on an insertion-ordered
association list: overwrite in place when the key exists, append
otherwise. -/
def setAttr (attrs : List (String × AttrVal)) (k : String) (v : AttrVal) :
    List (String × AttrVal) :=
  if hasKey attrs k then
    attrs.map (fun p => if p.1 = k then (k, v) else p)
  else
    attrs ++ [(k, v)]

/-- Python dict lookup `attrs[k]` (first matching key). -/
def lookupA (attrs : List (String × AttrVal)) (k : String) : Option AttrVal :=
  match attrs with
  | [] => none
  | p :: rest => if p.1 = k then some p.2 else lookupA rest k

/-- The six attribute assignments every emitted species variable receives
(`wrfchemi_to_netcdf` in pychemiss.py; identical in `write_var_attributes`
of aas4wrf.py and wrfchemi_zeros.py), in source order. -/
def emiss_var_attrs (attrs : List (String × AttrVal)) : List (String × AttrVal) :=
  setAttr (setAttr (setAttr (setAttr (setAttr (setAttr attrs
    "FieldType" (AttrVal.i 104))
    "MemoryOrder" (AttrVal.s "XYZ"))
    "description" (AttrVal.s "EMISSIONS"))
    "units" (AttrVal.s "mol km^2 hr^-1"))
    "stagger" (AttrVal.s ""))
    "coordinates" (AttrVal.s "XLONG XLAT")

/-- A timestamp of the hourly date range. -/
structure DateTime where
  year : ℕ
  month : ℕ
  day : ℕ
  hour : ℕ
  minute : ℕ
  second : ℕ
deriving DecidableEq

/-- The ASCII digit character of `n % 10`. -/
def digitChar (n : ℕ) : Char := Char.ofNat (48 + n % 10)

/-- Zero-padded two-digit decimal rendering (strftime `%m`, `%d`, `%H`,
`%M`, `%S`; exact for field values below 100). -/
def pad2 (n : ℕ) : String := String.mk [digitChar (n / 10), digitChar n]

/-- Zero-padded four-digit decimal rendering (strftime `%Y`; exact for
years below 10000). -/
def pad4 (n : ℕ) : String :=
  String.mk [digitChar (n / 1000), digitChar (n / 100), digitChar (n / 10), digitChar n]

/-- Embedding of `date.strftime("%Y-%m-%d_%H:%M:%S")` for one timestamp. -/
def strftime_wrf (d : DateTime) : String :=
  pad4 d.year ++ "-" ++ pad2 d.month ++ "-" ++ pad2 d.day ++ "_" ++
  pad2 d.hour ++ ":" ++ pad2 d.minute ++ ":" ++ pad2 d.second

/-- The modelled slice of a wrfchemi/wrfinput dataset: per-variable
attribute dictionaries, global attribute dictionary, `Times` entries. -/
structure WrfChemi where
  varAttrs : List (String × List (String × AttrVal))
  attrs : List (String × AttrVal)
  times : List String
deriving DecidableEq

/-- Embedding of `wrfchemi_to_netcdf` (pychemiss.py): add the `Times`
variable from the date range, copy every wrfinput global attribute, then
stamp the six species attributes on each variable named in
`emiss_names`. -/
def wrfchemi_to_netcdf (wrfchemi : WrfChemi) (wrfinput_attrs : List (String × AttrVal))
    (date : List DateTime) (emiss_names : List String) : WrfChemi :=
  let withTimes : WrfChemi := { wrfchemi with times := date.map strftime_wrf }
  let withGlobals : WrfChemi :=
    { withTimes with
        attrs := wrfinput_attrs.foldl (fun a p => setAttr a p.1 p.2) withTimes.attrs }
  { withGlobals with
      varAttrs := withGlobals.varAttrs.map
        (fun p => if p.1 ∈ emiss_names then (p.1, emiss_var_attrs p.2) else p) }

theorem lookupA_append_single_ne (a : List (String × AttrVal)) (k k' : String)
    (v : AttrVal) (h : k' ≠ k) :
    lookupA (a ++ [(k, v)]) k' = lookupA a k' := by
  induction a with
  | nil =>
    show lookupA [(k, v)] k' = lookupA [] k'
    simp only [lookupA]
    rw [if_neg (fun hh => h (Eq.symm hh))]
  | cons p rest ih =>
    by_cases hp : p.1 = k'
    · simp [lookupA, hp]
    · simp only [List.cons_append, lookupA, if_neg hp]
      exact ih

theorem lookupA_append_single_self (a : List (String × AttrVal)) (k : String)
    (v : AttrVal) (h : hasKey a k = false) :
    lookupA (a ++ [(k, v)]) k = some v := by
  induction a with
  | nil => simp [lookupA]
  | cons p rest ih =>
    rw [hasKey] at h
    simp only [Bool.or_eq_false_iff, decide_eq_false_iff_not] at h
    simp only [List.cons_append, lookupA, if_neg h.1]
    exact ih h.2

theorem lookupA_map_setkey_self (a : List (String × AttrVal)) (k : String)
    (v : AttrVal) (h : hasKey a k = true) :
    lookupA (a.map (fun p => if p.1 = k then (k, v) else p)) k = some v := by
  induction a with
  | nil => simp [hasKey] at h
  | cons p rest ih =>
    rw [hasKey] at h
    by_cases hp : p.1 = k
    · simp [lookupA, hp]
    · simp only [decide_eq_true_eq, Bool.or_eq_true] at h
      rcases h with h | h
      · exact absurd h hp
      · simp only [List.map_cons, if_neg hp, lookupA, if_neg hp]
        exact ih h

theorem lookupA_map_setkey_ne (a : List (String × AttrVal)) (k k' : String)
    (v : AttrVal) (h : k' ≠ k) :
    lookupA (a.map (fun p => if p.1 = k then (k, v) else p)) k' = lookupA a k' := by
  induction a with
  | nil => simp [lookupA]
  | cons p rest ih =>
    by_cases hp : p.1 = k
    · simp only [List.map_cons, if_pos hp, lookupA]
      rw [if_neg (fun hh => h (Eq.symm hh)),
          if_neg (show ¬p.1 = k' by rw [hp]; exact fun hh => h (Eq.symm hh))]
      exact ih
    · simp only [List.map_cons, if_neg hp, lookupA]
      by_cases hp' : p.1 = k'
      · simp [hp']
      · simp only [if_neg hp']
        exact ih

theorem lookupA_setAttr_self (a : List (String × AttrVal)) (k : String) (v : AttrVal) :
    lookupA (setAttr a k v) k = some v := by
  rw [setAttr]
  by_cases hc : hasKey a k
  · rw [if_pos hc]
    exact lookupA_map_setkey_self a k v hc
  · rw [if_neg hc]
    exact lookupA_append_single_self a k v (by simpa using hc)

theorem lookupA_setAttr_ne (a : List (String × AttrVal)) (k k' : String)
    (v : AttrVal) (h : k' ≠ k) :
    lookupA (setAttr a k v) k' = lookupA a k' := by
  rw [setAttr]
  by_cases hc : hasKey a k
  · rw [if_pos hc]
    exact lookupA_map_setkey_ne a k k' v h
  · rw [if_neg hc]
    exact lookupA_append_single_ne a k k' v h

theorem lookupA_emiss_var_attrs (b : List (String × AttrVal)) :
    lookupA (emiss_var_attrs b) "FieldType" = some (AttrVal.i 104) ∧
    lookupA (emiss_var_attrs b) "MemoryOrder" = some (AttrVal.s "XYZ") ∧
    lookupA (emiss_var_attrs b) "description" = some (AttrVal.s "EMISSIONS") ∧
    lookupA (emiss_var_attrs b) "units" = some (AttrVal.s "mol km^2 hr^-1") ∧
    lookupA (emiss_var_attrs b) "stagger" = some (AttrVal.s "") ∧
    lookupA (emiss_var_attrs b) "coordinates" = some (AttrVal.s "XLONG XLAT") := by
  rw [emiss_var_attrs]
  refine ⟨?_, ?_, ?_, ?_, ?_, ?_⟩
  · rw [lookupA_setAttr_ne _ _ _ _ (by decide), lookupA_setAttr_ne _ _ _ _ (by decide),
        lookupA_setAttr_ne _ _ _ _ (by decide), lookupA_setAttr_ne _ _ _ _ (by decide),
        lookupA_setAttr_ne _ _ _ _ (by decide), lookupA_setAttr_self]
  · rw [lookupA_setAttr_ne _ _ _ _ (by decide), lookupA_setAttr_ne _ _ _ _ (by decide),
        lookupA_setAttr_ne _ _ _ _ (by decide), lookupA_setAttr_ne _ _ _ _ (by decide),
        lookupA_setAttr_self]
  · rw [lookupA_setAttr_ne _ _ _ _ (by decide), lookupA_setAttr_ne _ _ _ _ (by decide),
        lookupA_setAttr_ne _ _ _ _ (by decide), lookupA_setAttr_self]
  · rw [lookupA_setAttr_ne _ _ _ _ (by decide), lookupA_setAttr_ne _ _ _ _ (by decide),
        lookupA_setAttr_self]
  · rw [lookupA_setAttr_ne _ _ _ _ (by decide), lookupA_setAttr_self]
  · rw [lookupA_setAttr_self]

theorem lookupA_foldl_setAttr_notmem (win : List (String × AttrVal))
    (a : List (String × AttrVal)) (k : String)
    (h : ∀ p ∈ win, p.1 ≠ k) :
    lookupA (win.foldl (fun acc p => setAttr acc p.1 p.2) a) k = lookupA a k := by
  induction win generalizing a with
  | nil => rfl
  | cons q rest ih =>
    rw [List.foldl_cons]
    rw [ih (setAttr a q.1 q.2) (fun p hp => h p (List.mem_cons_of_mem q hp))]
    exact lookupA_setAttr_ne a q.1 k q.2
      (fun hh => h q (List.mem_cons_self q rest) hh.symm)

theorem lookupA_foldl_setAttr_mem (win : List (String × AttrVal))
    (a : List (String × AttrVal)) (k : String) (v : AttrVal)
    (hnodup : (win.map Prod.fst).Nodup) (hmem : (k, v) ∈ win) :
    lookupA (win.foldl (fun acc p => setAttr acc p.1 p.2) a) k = some v := by
  induction win generalizing a with
  | nil => cases hmem
  | cons q rest ih =>
    rw [List.map_cons, List.nodup_cons] at hnodup
    rw [List.foldl_cons]
    rcases List.mem_cons.mp hmem with heq | hrest
    · have hq1 : q.1 = k := by rw [← heq]
      have hq2 : q.2 = v := by rw [← heq]
      rw [hq1, hq2]
      rw [lookupA_foldl_setAttr_notmem rest (setAttr a k v) k
        (fun p hp hpk => hnodup.1 (by
          rw [hq1, ← hpk]
          exact List.mem_map_of_mem Prod.fst hp))]
      exact lookupA_setAttr_self a k v
    · exact ih (setAttr a q.1 q.2) hnodup.2 hrest

theorem strftime_wrf_data (d : DateTime) :
    (strftime_wrf d).data
      = [digitChar (d.year / 1000), digitChar (d.year / 100),
         digitChar (d.year / 10), digitChar d.year, '-',
         digitChar (d.month / 10), digitChar d.month, '-',
         digitChar (d.day / 10), digitChar d.day, '_',
         digitChar (d.hour / 10), digitChar d.hour, ':',
         digitChar (d.minute / 10), digitChar d.minute, ':',
         digitChar (d.second / 10), digitChar d.second] := by
  simp [strftime_wrf, pad4, pad2, String.data_append]

/-- C8, amended: after the output composer runs, every emitted species
variable carries the six attributes `FieldType = 104`,
`MemoryOrder = XYZ`, `description = EMISSIONS`,
`units = mol km^2 hr^-1`, `stagger = <empty>` and
`coordinates = XLONG XLAT` with exactly these values (attributes already
present under other keys, such as the regridder's `regrid_method`, are
retained); every global attribute of wrfinput is copied unchanged onto
the wrfchemi dataset; and the dataset holds one `Times` entry per time
step, each a 19-character string shaped `%Y-%m-%d_%H:%M:%S`. -/
theorem wrfchemi_to_netcdf_spec (ds : WrfChemi) (win : List (String × AttrVal))
    (date : List DateTime) (names : List String)
    (hwin : (win.map Prod.fst).Nodup) :
    (∀ n a, n ∈ names → (n, a) ∈ (wrfchemi_to_netcdf ds win date names).varAttrs →
      lookupA a "FieldType" = some (AttrVal.i 104) ∧
      lookupA a "MemoryOrder" = some (AttrVal.s "XYZ") ∧
      lookupA a "description" = some (AttrVal.s "EMISSIONS") ∧
      lookupA a "units" = some (AttrVal.s "mol km^2 hr^-1") ∧
      lookupA a "stagger" = some (AttrVal.s "") ∧
      lookupA a "coordinates" = some (AttrVal.s "XLONG XLAT")) ∧
    (∀ k v, (k, v) ∈ win →
      lookupA (wrfchemi_to_netcdf ds win date names).attrs k = some v) ∧
    (wrfchemi_to_netcdf ds win date names).times.length = date.length ∧
    (∀ t ∈ (wrfchemi_to_netcdf ds win date names).times,
      t.length = 19 ∧
      t.data.getD 4 ' ' = '-' ∧ t.data.getD 7 ' ' = '-' ∧
      t.data.getD 10 ' ' = '_' ∧ t.data.getD 13 ' ' = ':' ∧
      t.data.getD 16 ' ' = ':') := by
  refine ⟨?_, ?_, ?_, ?_⟩
  · intro n a hn hmem
    simp only [wrfchemi_to_netcdf, List.mem_map] at hmem
    obtain ⟨p, hp, heq⟩ := hmem
    by_cases hpn : p.1 ∈ names
    · rw [if_pos hpn] at heq
      have ha : a = emiss_var_attrs p.2 := by
        have := congrArg Prod.snd heq
        simpa using this.symm
      rw [ha]
      exact lookupA_emiss_var_attrs p.2
    · rw [if_neg hpn] at heq
      exfalso
      apply hpn
      have : p.1 = n := by rw [heq]
      rw [this]
      exact hn
  · intro k v hmem
    simp only [wrfchemi_to_netcdf]
    exact lookupA_foldl_setAttr_mem win ds.attrs k v hwin hmem
  · simp [wrfchemi_to_netcdf]
  · intro t ht
    simp only [wrfchemi_to_netcdf, List.mem_map] at ht
    obtain ⟨d, _, rfl⟩ := ht
    refine ⟨?_, ?_, ?_, ?_, ?_, ?_⟩ <;>
      simp [String.length, strftime_wrf_data]

/-- Witness for C8 (amended) on a concrete dataset, date and attribute
list. -/
theorem wrfchemi_to_netcdf_spec_witness :
    lookupA (wrfchemi_to_netcdf
        ⟨[("E_CO", [])], [], []⟩
        [("DX", AttrVal.i 1000)]
        [⟨2014, 10, 6, 0, 0, 0⟩]
        ["E_CO"]).attrs "DX" = some (AttrVal.i 1000) :=
  (wrfchemi_to_netcdf_spec ⟨[("E_CO", [])], [], []⟩ [("DX", AttrVal.i 1000)]
      [⟨2014, 10, 6, 0, 0, 0⟩] ["E_CO"] (by simp)).2.1
    "DX" (AttrVal.i 1000) (by simp)

/-- C8, counterexample: the composer only assigns the six species
attributes and never clears a variable's attribute dictionary, so a
species variable entering with the regridder-stamped attribute
`regrid_method` still carries it afterwards — its attribute set is then
not exactly the six listed ones. -/
theorem wrfchemi_to_netcdf_extra_attr_survives :
    ((wrfchemi_to_netcdf
        ⟨[("E_CO", [("regrid_method", AttrVal.s "nearest_s2d")])], [], []⟩
        [] [] ["E_CO"]).varAttrs.map
      (fun p => lookupA p.2 "regrid_method"))
      = [some (AttrVal.s "nearest_s2d")] ∧
    ("regrid_method" ∉ ["FieldType", "MemoryOrder", "description", "units",
        "stagger", "coordinates"]) := by
  constructor
  · rfl
  · decide

/-! ## Regridding method dispatch (`__main__` of aas4wrf.py lines 404-409
and of src/pychemiss.py lines 400-407)

The external regridder (`xe.Regridder(src, dst, method)` followed by
`regridder(emiss_input)`) is a function parameter receiving the source
coordinate definition, the destination coordinate definition, the method
string and the dataset.  aas4wrf.py dispatches on
`'conservative'`/`'nearest_s2d'`; its conservative branch augments both
coordinate dictionaries with cell bounds (`cell_bound` on the emission
side, the staggered `XLONG_U` row / `XLAT_V` column on the WRF side).
src/pychemiss.py only has a `'nearest_s2d'` branch; any other method
leaves `wrfchemi_reggrided` unassigned and the run dies with `NameError`,
which `Option.none` models. -/

/-- A lat/lon coordinate definition, with optional cell-bound arrays as
xESMF expects for conservative regridding. -/
structure GridCoords where
  lat : List ℚ
  lon : List ℚ
  lat_b : Option (List ℚ) := none
  lon_b : Option (List ℚ) := none
deriving DecidableEq

/-- aas4wrf.py `nearest_method`: `xe.Regridder(emiss_coords, wrf_coords,
method='nearest_s2d')` applied to `emiss_input`. -/
def nearest_method_regrid {α : Type} (xe_regrid : GridCoords → GridCoords → String → α → α)
    (wrf_coords emiss_coords : GridCoords) (emiss_input : α) : α :=
  xe_regrid emiss_coords wrf_coords "nearest_s2d" emiss_input

/-- aas4wrf.py `conservative_method` (regridding part): both coordinate
dictionaries gain bound arrays — `cell_bound` of the emission centers,
the staggered wrfinput rows on the WRF side — before
`xe.Regridder(emiss_coords, wrf_coords, method='conservative')` runs on
`emiss_input`. -/
def conservative_method_regrid {α : Type}
    (xe_regrid : GridCoords → GridCoords → String → α → α)
    (wrf_coords emiss_coords : GridCoords)
    (xlat_v_col xlong_u_row : List ℚ) (emiss_input : α) : α :=
  let wrf_b : GridCoords :=
    { wrf_coords with lon_b := some xlong_u_row, lat_b := some xlat_v_col }
  let emiss_b : GridCoords :=
    { emiss_coords with
        lon_b := some (cell_bound emiss_coords.lon),
        lat_b := some (cell_bound emiss_coords.lat) }
  xe_regrid emiss_b wrf_b "conservative" emiss_input

/-- The `reggrid_method` dispatch of aas4wrf.py `__main__`: an
unrecognised method leaves `wrfchemi` unassigned (`none`). -/
def aas4wrf_dispatch {α : Type} (xe_regrid : GridCoords → GridCoords → String → α → α)
    (method : String) (wrf_coords emiss_coords : GridCoords)
    (xlat_v_col xlong_u_row : List ℚ) (emiss_input : α) : Option α :=
  if method = "conservative" then
    some (conservative_method_regrid xe_regrid wrf_coords emiss_coords
      xlat_v_col xlong_u_row emiss_input)
  else if method = "nearest_s2d" then
    some (nearest_method_regrid xe_regrid wrf_coords emiss_coords emiss_input)
  else none

/-- src/pychemiss.py `nearest_method` (regridding part):
`xe.Regridder(emiss_input, grid_out, 'nearest_s2d')` applied to
`emiss_input`, with `grid_out` built from the wrfinput `XLAT`/`XLONG`
fields. -/
def pychemiss_nearest_regrid {α : Type}
    (xe_regrid : GridCoords → GridCoords → String → α → α)
    (wrf_grid emiss_grid : GridCoords) (emiss_input : α) : α :=
  xe_regrid emiss_grid wrf_grid "nearest_s2d" emiss_input

/-- The `reggrid_method` dispatch of src/pychemiss.py `__main__`: only
`'nearest_s2d'` is handled; every other method (including
`'conservative'`) leaves `wrfchemi_reggrided` unassigned (`none`). -/
def pychemiss_dispatch {α : Type} (xe_regrid : GridCoords → GridCoords → String → α → α)
    (method : String) (wrf_grid emiss_grid : GridCoords) (emiss_input : α) :
    Option α :=
  if method = "nearest_s2d" then
    some (pychemiss_nearest_regrid xe_regrid wrf_grid emiss_grid emiss_input)
  else none

/-- C1, counterexample: selecting the supported method `'conservative'` in
src/pychemiss.py produces no regridded wrfchemi dataset at all — the
dispatch has no branch for it (the script then dies with `NameError`),
so it is not the case that each of the two supported methods yields a
regridded dataset in both scripts. -/
theorem pychemiss_dispatch_conservative_none :
    pychemiss_dispatch (fun _ _ _ d => d) "conservative"
      ⟨[0], [0], none, none⟩ ⟨[0], [0], none, none⟩ (0 : ℚ) = none := by
  rfl

/-- C1, amended: in aas4wrf.py both supported methods hand the source
(emission) and destination (WRF) coordinate definitions to the external
regridding library and yield the regridded dataset it returns — the
conservative branch first attaches the cell-bound arrays to both grids;
in src/pychemiss.py this holds for `'nearest_s2d'` only, while
`'conservative'` yields no dataset. -/
theorem regrid_dispatch_spec {α : Type}
    (xe_regrid : GridCoords → GridCoords → String → α → α)
    (wrf_coords emiss_coords : GridCoords)
    (xlat_v_col xlong_u_row : List ℚ) (emiss_input : α) :
    aas4wrf_dispatch xe_regrid "conservative" wrf_coords emiss_coords
        xlat_v_col xlong_u_row emiss_input
      = some (xe_regrid
          { emiss_coords with
              lon_b := some (cell_bound emiss_coords.lon),
              lat_b := some (cell_bound emiss_coords.lat) }
          { wrf_coords with lon_b := some xlong_u_row, lat_b := some xlat_v_col }
          "conservative" emiss_input) ∧
    aas4wrf_dispatch xe_regrid "nearest_s2d" wrf_coords emiss_coords
        xlat_v_col xlong_u_row emiss_input
      = some (xe_regrid emiss_coords wrf_coords "nearest_s2d" emiss_input) ∧
    pychemiss_dispatch xe_regrid "nearest_s2d" wrf_coords emiss_coords emiss_input
      = some (xe_regrid emiss_coords wrf_coords "nearest_s2d" emiss_input) ∧
    pychemiss_dispatch xe_regrid "conservative" wrf_coords emiss_coords emiss_input
      = none := by
  refine ⟨rfl, rfl, rfl, rfl⟩

/-! ## On-disk behaviour (C9): file operations per invocation

aas4wrf.py `__main__` reads the emission file and the wrfinput file; the
`conservative` branch (lines 216-270) additionally writes
`emiss_input.nc` (`emiss_input.to_netcdf`), reads it back through `cdo
gridarea` which writes `emiss_input_area.nc`, reads that file
(`xr.open_dataarray`), and removes both temporaries (`os.remove`); then
`wrfchemi.to_netcdf(output_name)` writes the single output.  (The weight
file the old xESMF release keeps on disk and `clean_weight_file` deletes
is owned by the external library and stays outside the model.) -/

/-- One file-system operation of the pipeline. -/
inductive FileOp where
  | write : String → FileOp
  | read : String → FileOp
  | remove : String → FileOp
deriving DecidableEq

/-- The temporary-file traffic of `conservative_method` (aas4wrf.py lines
216-220 and 269-270), in source order. -/
def conservative_temp_ops : List FileOp :=
  [FileOp.write "emiss_input.nc",
   FileOp.read "emiss_input.nc",
   FileOp.write "emiss_input_area.nc",
   FileOp.read "emiss_input_area.nc",
   FileOp.remove "emiss_input.nc",
   FileOp.remove "emiss_input_area.nc"]

/-- The file operations of one aas4wrf.py invocation with the given
method and file names. -/
def aas4wrf_file_trace (method : String)
    (emission_file wrfinput_file output_name : String) : List FileOp :=
  [FileOp.read emission_file, FileOp.read wrfinput_file] ++
  (if method = "conservative" then conservative_temp_ops else []) ++
  [FileOp.write output_name]

/-- The names written by a trace, in order. -/
def writesOf : List FileOp → List String
  | [] => []
  | FileOp.write n :: rest => n :: writesOf rest
  | _ :: rest => writesOf rest

/-- The names read by a trace, in order. -/
def readsOf : List FileOp → List String
  | [] => []
  | FileOp.read n :: rest => n :: readsOf rest
  | _ :: rest => readsOf rest

/-- The effect of one file operation on the set of existing files (kept
as an insertion-ordered duplicate-free list). -/
def applyOp (fs : List String) : FileOp → List String
  | FileOp.write n => if n ∈ fs then fs else fs ++ [n]
  | FileOp.read _ => fs
  | FileOp.remove n => fs.filter (fun m => m ≠ n)

/-- The files existing after running a trace from an initial file set. -/
def existingAfter (initial : List String) : List FileOp → List String
  | [] => initial
  | op :: rest => existingAfter (applyOp initial op) rest

/-- C9, counterexample: with the conservative method the invocation
writes and reads back the temporary `emiss_input.nc`, a file that is
neither an input artifact nor an output NetCDF file — the on-disk state
of the run is not limited to inputs plus outputs. -/
theorem aas4wrf_conservative_temp_files :
    FileOp.write "emiss_input.nc"
      ∈ aas4wrf_file_trace "conservative" "emiss.txt" "wrfinput_d01" "wrfchemi_d01" ∧
    FileOp.read "emiss_input.nc"
      ∈ aas4wrf_file_trace "conservative" "emiss.txt" "wrfinput_d01" "wrfchemi_d01" ∧
    "emiss_input.nc" ∉ ["emiss.txt", "wrfinput_d01", "wrfchemi_d01"] := by
  refine ⟨?_, ?_, ?_⟩ <;> decide

/-- C9, amended: per invocation the pipeline reads the two input
artifacts and never writes or removes them, writes no file twice, and —
although the conservative method writes, reads and deletes the two
temporaries `emiss_input.nc` and `emiss_input_area.nc` during the run —
leaves exactly the inputs plus the single output on disk afterwards. -/
theorem aas4wrf_file_trace_spec (method e w o : String)
    (hm : method = "conservative" ∨ method = "nearest_s2d")
    (he1 : e ≠ "emiss_input.nc") (he2 : e ≠ "emiss_input_area.nc")
    (heo : e ≠ o)
    (hw1 : w ≠ "emiss_input.nc") (hw2 : w ≠ "emiss_input_area.nc")
    (hwo : w ≠ o)
    (ho1 : o ≠ "emiss_input.nc") (ho2 : o ≠ "emiss_input_area.nc") :
    (writesOf (aas4wrf_file_trace method e w o)).Nodup ∧
    e ∉ writesOf (aas4wrf_file_trace method e w o) ∧
    w ∉ writesOf (aas4wrf_file_trace method e w o) ∧
    readsOf (aas4wrf_file_trace method e w o)
      = [e, w] ++ (if method = "conservative"
          then ["emiss_input.nc", "emiss_input_area.nc"] else []) ∧
    existingAfter [e, w] (aas4wrf_file_trace method e w o) = [e, w, o] := by
  have hlit : ("emiss_input.nc" : String) ≠ "emiss_input_area.nc" := by decide
  have hrd : ∀ (fs : List String) (n : String), applyOp fs (FileOp.read n) = fs :=
    fun _ _ => rfl
  rcases hm with hm | hm <;> subst hm
  · have htrace : aas4wrf_file_trace "conservative" e w o
        = [FileOp.read e, FileOp.read w,
           FileOp.write "emiss_input.nc", FileOp.read "emiss_input.nc",
           FileOp.write "emiss_input_area.nc", FileOp.read "emiss_input_area.nc",
           FileOp.remove "emiss_input.nc", FileOp.remove "emiss_input_area.nc",
           FileOp.write o] := by
      rw [aas4wrf_file_trace, if_pos rfl]
      rfl
    have hmem1 : ¬(("emiss_input.nc" : String) ∈ [e, w]) := by
      simp only [List.mem_cons, List.not_mem_nil, or_false]
      intro hh
      rcases hh with h1 | h2
      · exact he1 (Eq.symm h1)
      · exact hw1 (Eq.symm h2)
    have hmem2 : ¬(("emiss_input_area.nc" : String) ∈ [e, w, "emiss_input.nc"]) := by
      simp only [List.mem_cons, List.not_mem_nil, or_false]
      intro hh
      rcases hh with h1 | h2 | h3
      · exact he2 (Eq.symm h1)
      · exact hw2 (Eq.symm h2)
      · exact hlit h3.symm
    have hmemo : ¬(o ∈ [e, w]) := by
      simp only [List.mem_cons, List.not_mem_nil, or_false]
      intro hh
      rcases hh with h1 | h2
      · exact heo (Eq.symm h1)
      · exact hwo (Eq.symm h2)
    have hap1 : applyOp [e, w] (FileOp.write "emiss_input.nc")
        = [e, w, "emiss_input.nc"] := by
      simp only [applyOp]
      rw [if_neg hmem1]
      rfl
    have hap2 : applyOp [e, w, "emiss_input.nc"] (FileOp.write "emiss_input_area.nc")
        = [e, w, "emiss_input.nc", "emiss_input_area.nc"] := by
      simp only [applyOp]
      rw [if_neg hmem2]
      rfl
    have hap3 : applyOp [e, w, "emiss_input.nc", "emiss_input_area.nc"]
        (FileOp.remove "emiss_input.nc") = [e, w, "emiss_input_area.nc"] := by
      simp only [applyOp]
      simp [List.filter_cons, he1, hw1, Ne.symm hlit]
    have hap4 : applyOp [e, w, "emiss_input_area.nc"]
        (FileOp.remove "emiss_input_area.nc") = [e, w] := by
      simp only [applyOp]
      simp [List.filter_cons, he2, hw2]
    have hap5 : applyOp [e, w] (FileOp.write o) = [e, w, o] := by
      simp only [applyOp]
      rw [if_neg hmemo]
      rfl
    rw [htrace]
    refine ⟨?_, ?_, ?_, ?_, ?_⟩
    · simp [writesOf, List.nodup_cons, hlit, Ne.symm ho1, Ne.symm ho2]
    · simp [writesOf, he1, he2, heo]
    · simp [writesOf, hw1, hw2, hwo]
    · rw [if_pos rfl]
      simp [readsOf]
    · calc existingAfter [e, w]
            [FileOp.read e, FileOp.read w,
             FileOp.write "emiss_input.nc", FileOp.read "emiss_input.nc",
             FileOp.write "emiss_input_area.nc", FileOp.read "emiss_input_area.nc",
             FileOp.remove "emiss_input.nc", FileOp.remove "emiss_input_area.nc",
             FileOp.write o]
          = existingAfter [e, w, "emiss_input.nc"]
              [FileOp.read "emiss_input.nc",
               FileOp.write "emiss_input_area.nc", FileOp.read "emiss_input_area.nc",
               FileOp.remove "emiss_input.nc", FileOp.remove "emiss_input_area.nc",
               FileOp.write o] := by
            rw [existingAfter, existingAfter, existingAfter, hrd, hrd, hap1]
        _ = existingAfter [e, w, "emiss_input.nc", "emiss_input_area.nc"]
              [FileOp.read "emiss_input_area.nc",
               FileOp.remove "emiss_input.nc", FileOp.remove "emiss_input_area.nc",
               FileOp.write o] := by
            rw [existingAfter, existingAfter, hrd, hap2]
        _ = existingAfter [e, w, "emiss_input_area.nc"]
              [FileOp.remove "emiss_input_area.nc", FileOp.write o] := by
            rw [existingAfter, existingAfter, hrd, hap3]
        _ = existingAfter [e, w] [FileOp.write o] := by
            rw [existingAfter, hap4]
        _ = [e, w, o] := by
            rw [existingAfter, hap5]
            rfl
  · have htrace : aas4wrf_file_trace "nearest_s2d" e w o
        = [FileOp.read e, FileOp.read w, FileOp.write o] := by
      rw [aas4wrf_file_trace, if_neg (by decide)]
      rfl
    have hmemo : ¬(o ∈ [e, w]) := by
      simp only [List.mem_cons, List.not_mem_nil, or_false]
      intro hh
      rcases hh with h1 | h2
      · exact heo (Eq.symm h1)
      · exact hwo (Eq.symm h2)
    have hap5 : applyOp [e, w] (FileOp.write o) = [e, w, o] := by
      simp only [applyOp]
      rw [if_neg hmemo]
      rfl
    rw [htrace]
    refine ⟨?_, ?_, ?_, ?_, ?_⟩
    · simp [writesOf]
    · simp [writesOf, heo]
    · simp [writesOf, hwo]
    · rw [if_neg (by decide)]
      simp [readsOf]
    · rw [existingAfter, existingAfter, existingAfter, hrd, hrd, hap5]
      rfl

/-- Witness for C9 (amended) at concrete file names. -/
theorem aas4wrf_file_trace_spec_witness :
    existingAfter ["emiss.txt", "wrfinput_d01"]
        (aas4wrf_file_trace "conservative" "emiss.txt" "wrfinput_d01"
          "wrfchemi_d01_out")
      = ["emiss.txt", "wrfinput_d01", "wrfchemi_d01_out"] :=
  (aas4wrf_file_trace_spec "conservative" "emiss.txt" "wrfinput_d01"
    "wrfchemi_d01_out" (Or.inl rfl) (by decide) (by decide) (by decide)
    (by decide) (by decide) (by decide) (by decide) (by decide)).2.2.2.2

end PyChEmiss
